import Mathlib

/-!
Verification of the cancellable recursive file search of `pet.py`
(the "Find Game" feature of the virtual-pet overlay).

The embedding models:
  * the filesystem as a tree of named directories with file-name lists,
    where a directory may be `denied` (its enumeration raises a
    permission error, which `os.walk` with the default `onerror=None`
    swallows, skipping the subtree);
  * `os.walk(root, topdown=True)` as `walkDirs`, yielding
    `(dirpath parts, filenames)` in top-down order;
  * paths as lists of components (Python `Path(p).parts`), joined to a
    display string the way `str(Path)` joins them on Windows;
  * the cancellation token `stop_evt` as an oracle `evt : Nat → Bool`
    giving the value returned by the n-th `is_set()` call of the run
    (a real token, once set, stays set: the interesting oracles are the
    monotone ones);
  * the shared result queue as the list of items put into it, in order;
    the sentinel `None` becomes `none`, results become `some r`;
  * shortcut resolution (pywin32 `WScript.Shell`) as an abstract
    function `resolve` returning `unavailable` (no pywin32), `err`
    (the COM call raised) or `ok target` (the `Targetpath` string,
    possibly empty).
-/

/-- Prefix test on character lists (structurally recursive, so that
concrete runs reduce inside the kernel). -/
def isPrefixB : List Char → List Char → Bool
  | [], _ => true
  | _ :: _, [] => false
  | a :: as, b :: bs => a == b && isPrefixB as bs

/-- Python `str.startswith`. -/
def strStartsWith (s pre : String) : Bool := isPrefixB pre.data s.data

/-- Python `str.endswith`. -/
def strEndsWith (s post : String) : Bool := isPrefixB post.data.reverse s.data.reverse

/-- Python `str.lower` (the names involved are ASCII, where `lower`
agrees with a character-wise `Char.toLower`). -/
def strLower (s : String) : String := String.mk (s.data.map Char.toLower)

/-- Python `in`: contiguous-substring containment, expressed on the
character lists. -/
def strIn (needle hay : String) : Bool :=
  decide (needle.data <:+: hay.data)

/-- Python `PurePath.stem`: the final suffix is removed when the last
dot sits strictly inside the name (not first, not last character).
`"foo.exe" ↦ "foo"`, `".bashrc" ↦ ".bashrc"`, `"a.b.c" ↦ "a.b"`. -/
def pyStem (name : String) : String :=
  let cs := name.data
  let j := cs.reverse.indexOf '.'
  if j < cs.length then
    let i := cs.length - 1 - j
    if 0 < i ∧ i < cs.length - 1 then String.mk (cs.take i) else name
  else name

/-- The final path component of a path string (Python `Path(s).name`
for paths that end in a file or directory name; Windows accepts both
separators). -/
def splitCharsAux (p : Char → Bool) : List Char → List Char → List (List Char)
  | [], acc => [acc.reverse]
  | c :: cs, acc =>
      if p c then acc.reverse :: splitCharsAux p cs []
      else splitCharsAux p cs (c :: acc)

def pyPathName (s : String) : String :=
  (((splitCharsAux (fun c => c == '\\' || c == '/') s.data []).map String.mk).filter
    (fun x => x ≠ "")).getLast?.getD ""

/-- `str(Path)` on Windows: components joined by a backslash, except
after a drive anchor such as `"C:\\"` that already ends in one. -/
def joinP : List String → String
  | [] => ""
  | head :: rest =>
      rest.foldl (fun acc c => if strEndsWith acc "\\" then acc ++ c else acc ++ "\\" ++ c) head

/-- A directory tree: `node files subdirs`, or `denied` when
enumerating the directory raises a permission error. -/
inductive FSTree where
  | node : List String → List (String × FSTree) → FSTree
  | denied : FSTree

mutual
/-- `os.walk(path, topdown=True)` with `onerror=None`: yields the
directory itself, then each subdirectory subtree in order; a denied
directory yields nothing and is skipped silently. -/
def walkDirs (path : List String) : FSTree → List (List String × List String)
  | .node files subs => (path, files) :: walkSubs path subs
  | .denied => []

def walkSubs (path : List String) : List (String × FSTree) → List (List String × List String)
  | [] => []
  | (n, t) :: rest => walkDirs (path ++ [n]) t ++ walkSubs path rest
end

/-- Every file the walk encounters, as a `(dirpath, filename)` pair. -/
def walkFiles (path : List String) (t : FSTree) : List (List String × String) :=
  (walkDirs path t).flatMap fun e => e.2.map fun f => (e.1, f)

/-- A result put into the queue: `(display_name, path)` in the code. -/
structure SearchResult where
  displayName : String
  targetPath : String
deriving DecidableEq, Repr

/-- Outcome of the pywin32 shortcut resolution for one `.lnk` file. -/
inductive ResolveOutcome where
  | unavailable : ResolveOutcome
  | err : ResolveOutcome
  | ok : String → ResolveOutcome

/-- The filter of the worker inner loop: only `.exe` / `.lnk` files
(case-insensitive), and the lowered term must occur in the lowered
file name or equal one of the lowered dirpath components
(`term not in low and term not in path_parts` in the code). -/
def fileAccepted (term : String) (dp : List String) (fname : String) : Bool :=
  let low := strLower fname
  (strEndsWith low ".exe" || strEndsWith low ".lnk") &&
  (strIn term low || (dp.map strLower).contains term)

/-- The emission step for one accepted file (steps 3 of the worker):
`.lnk` files go through shortcut resolution with the documented
fallbacks, `.exe` files are reported as themselves. -/
def emitFile (resolve : String → ResolveOutcome) (dp : List String) (fname : String) :
    SearchResult :=
  let fullPath := joinP (dp ++ [fname])
  if strEndsWith (strLower fname) ".lnk" then
    match resolve fullPath with
    | .ok target =>
        let displayName :=
          if target ≠ "" ∧ strEndsWith (strLower target) ".exe" then pyStem (pyPathName target)
          else pyStem fname
        ⟨displayName, if target ≠ "" then target else fullPath⟩
    | .err => ⟨pyStem fname, fullPath⟩
    | .unavailable => ⟨pyStem fname, fullPath⟩
  else
    ⟨pyStem fname, fullPath⟩

/-- Results produced while processing the files of one visited
directory. -/
def processDir (term : String) (resolve : String → ResolveOutcome)
    (dp : List String) (files : List String) : List SearchResult :=
  (files.filter (fileAccepted term dp)).map (emitFile resolve dp)

/-- The hidden-directory test of the worker:
`any(part.startswith(".") for part in Path(dirpath).parts)`. -/
def hiddenDir (dp : List String) : Bool :=
  dp.any (fun p => strStartsWith p ".")

/-- The `(dirpath, filename)` pairs that pass the hidden-directory,
extension and term filters for one root, i.e. exactly the files the
worker reports. -/
def candidates (term : String) (rootPath : List String) (t : FSTree) :
    List (List String × String) :=
  (walkDirs rootPath t).flatMap fun e =>
    if hiddenDir e.1 then []
    else (e.2.filter (fileAccepted term e.1)).map fun f => (e.1, f)

/-- All results one root contributes when the search is never
cancelled. -/
def rootResults (term : String) (resolve : String → ResolveOutcome)
    (rootPath : List String) (t : FSTree) : List SearchResult :=
  (walkDirs rootPath t).flatMap fun e =>
    if hiddenDir e.1 then [] else processDir term resolve e.1 e.2

/-- A root as the worker sees it: its path, whether `root.is_dir()`
holds, and the tree below it when it does. -/
structure Root where
  path : List String
  isDir : Bool
  tree : FSTree

/-- The `for dirpath, _dirnames, filenames in os.walk(root)` loop:
one `stop_evt.is_set()` call per yielded directory (the call counter
is threaded through and returned), `break` on a set flag, skip of
hidden dirpaths, then the per-file filter and emission. -/
def walkRoot (term : String) (resolve : String → ResolveOutcome) (evt : Nat → Bool)
    (n : Nat) : List (List String × List String) → Nat × List SearchResult
  | [] => (n, [])
  | e :: rest =>
      if evt n then (n + 1, [])
      else
        let emitted := if hiddenDir e.1 then [] else processDir term resolve e.1 e.2
        let r := walkRoot term resolve evt (n + 1) rest
        (r.1, emitted ++ r.2)

/-- The `for root in SEARCH_ROOTS` loop: one `is_set()` check per
root iteration, `break` on a set flag, silent skip of roots that are
not directories, then the walk of the root. -/
def rootsLoop (term : String) (resolve : String → ResolveOutcome) (evt : Nat → Bool)
    (n : Nat) : List Root → Nat × List SearchResult
  | [] => (n, [])
  | r :: rest =>
      if evt n then (n + 1, [])
      else if !r.isDir then rootsLoop term resolve evt (n + 1) rest
      else
        let w := walkRoot term resolve evt (n + 1) (walkDirs r.path r.tree)
        let rec' := rootsLoop term resolve evt w.1 rest
        (rec'.1, w.2 ++ rec'.2)

/-- `_search_worker`: lowers the term, runs the root loop, and always
puts the sentinel `None` as the final queue item. -/
def search_worker (search_term : String) (resolve : String → ResolveOutcome)
    (evt : Nat → Bool) (roots : List Root) : List (Option SearchResult) :=
  ((rootsLoop (strLower search_term) resolve evt 0 roots).2).map some ++ [none]

/-- `_fallback_roots`: the fixed list scanned when the user supplied no
custom search paths.  The environment variables and the home directory
are parameters; `os.getenv(name, default)` becomes `Option.getD`.
Paths are carried as display strings (`Path` construction on an
already-absolute Windows string keeps it as given). -/
def fallback_roots (programFiles programFilesX86 : Option String) (home : String) :
    List String :=
  [programFiles.getD "C:\\Program Files",
   programFilesX86.getD "C:\\Program Files (x86)",
   home,
   home ++ "\\AppData\\Roaming",
   home ++ "\\Desktop",
   home ++ "\\Documents"]

/-- `get_search_roots`: user paths from `config["search_paths"]`
(dropping falsy, i.e. empty, entries) when any survive, else the
fallback list. -/
def get_search_roots (search_paths : List String)
    (programFiles programFilesX86 : Option String) (home : String) : List String :=
  if search_paths.filter (fun p => p ≠ "") ≠ [] then search_paths.filter (fun p => p ≠ "")
  else fallback_roots programFiles programFilesX86 home

/-- The queue contents the new poll loop of `start_search` will read
after a restart: `start_search` sets `stop_evt`, joins the old worker
(which has then put all its remaining items, sentinel included), and
starts the new worker — but never drains `result_q`.  `drained` is how
many of the old items the previous poll loop had already consumed. -/
def queueAfterRestart (oldItems : List (Option SearchResult)) (drained : Nat)
    (newItems : List (Option SearchResult)) : List (Option SearchResult) :=
  oldItems.drop drained ++ newItems

/-- What `poll_queue` delivers for one search: it forwards results
item by item and stops for good at the first sentinel it dequeues. -/
def observedByPoll : List (Option SearchResult) → List (Option SearchResult)
  | [] => []
  | none :: _ => [none]
  | some r :: rest => some r :: observedByPoll rest

/-- The matching rule exactly as the specification words it: the name
ends case-insensitively in `.exe` or `.lnk`, and the term is a
case-insensitive substring of the file name, or equals
(case-insensitively) a single component of the containing directory
chain. -/
def specMatch (search_term : String) (dp : List String) (fname : String) : Prop :=
  (strEndsWith (strLower fname) ".exe" = true ∨ strEndsWith (strLower fname) ".lnk" = true) ∧
  ((strLower search_term).data <:+: (strLower fname).data ∨
    ∃ p ∈ dp, strLower p = strLower search_term)

/-!  Shared lemmas about the embedding. -/

/-- The per-file filter of the worker agrees with the matching rule as
the specification words it. -/
theorem fileAccepted_iff (t : String) (dp : List String) (f : String) :
    fileAccepted (strLower t) dp f = true ↔ specMatch t dp f := by
  simp only [fileAccepted, specMatch, strIn, Bool.and_eq_true, Bool.or_eq_true,
    decide_eq_true_eq, List.contains, List.elem_iff, List.mem_map]

mutual
/-- Every directory `os.walk` yields below a root has the root path as
a leading segment of its own path. -/
theorem walkDirs_path_extends (P : List String) :
    (t : FSTree) → ∀ e ∈ walkDirs P t, P <+: e.1
  | .denied => by simp [walkDirs]
  | .node files subs => by
      intro e he
      rw [walkDirs] at he
      rcases List.mem_cons.mp he with h | h
      · subst h; exact List.prefix_rfl
      · exact walkSubs_path_extends P subs e h

theorem walkSubs_path_extends (P : List String) :
    (l : List (String × FSTree)) → ∀ e ∈ walkSubs P l, P <+: e.1
  | [] => by simp [walkSubs]
  | (nm, t) :: rest => by
      intro e he
      rw [walkSubs] at he
      rcases List.mem_append.mp he with h | h
      · exact (List.prefix_append P [nm]).trans (walkDirs_path_extends (P ++ [nm]) t e h)
      · exact walkSubs_path_extends P rest e h
end

/-- A list where every element maps to the empty list flattens to the
empty list. -/
theorem flatMap_eq_nil_of_forall {α β : Type} (l : List α) (f : α → List β)
    (h : ∀ a ∈ l, f a = []) : l.flatMap f = [] := by
  induction l with
  | nil => rfl
  | cons x xs ih =>
      simp only [List.flatMap_cons, h x (by simp), List.nil_append]
      exact ih fun a ha => h a (by simp [ha])

/-- The results of one root are exactly the images of its candidate
`(dirpath, filename)` pairs under the emission step. -/
theorem rootResults_eq_map_candidates (term : String) (resolve : String → ResolveOutcome)
    (P : List String) (T : FSTree) :
    rootResults term resolve P T =
      (candidates term P T).map (fun c => emitFile resolve c.1 c.2) := by
  unfold rootResults candidates
  rw [List.map_flatMap]
  apply List.flatMap_congr
  intro e _
  by_cases h : hiddenDir e.1
  · simp [h]
  · simp [h, processDir, List.map_map]

/-- With the flag never set, the walk of one root emits every
non-hidden directory in order. -/
theorem walkRoot_no_cancel (term : String) (resolve : String → ResolveOutcome)
    (evt : Nat → Bool) (h : ∀ m, evt m = false) (n : Nat)
    (es : List (List String × List String)) :
    (walkRoot term resolve evt n es).2 =
      es.flatMap (fun e => if hiddenDir e.1 then [] else processDir term resolve e.1 e.2) := by
  induction es generalizing n with
  | nil => rfl
  | cons e rest ih => simp [walkRoot, h, ih]

/-- With the flag never set, the worker emits, root after root, all
the results of every root that is a directory. -/
theorem rootsLoop_no_cancel (term : String) (resolve : String → ResolveOutcome)
    (evt : Nat → Bool) (h : ∀ m, evt m = false) (n : Nat) (roots : List Root) :
    (rootsLoop term resolve evt n roots).2 =
      roots.flatMap (fun r => if r.isDir then rootResults term resolve r.path r.tree else []) := by
  induction roots generalizing n with
  | nil => rfl
  | cons r rest ih =>
      by_cases hd : r.isDir
      · simp [rootsLoop, h, hd, ih, walkRoot_no_cancel term resolve evt h, rootResults]
      · simp [rootsLoop, h, hd, ih]

theorem walkSubs_append (P : List String) (a b : List (String × FSTree)) :
    walkSubs P (a ++ b) = walkSubs P a ++ walkSubs P b := by
  induction a with
  | nil => rfl
  | cons x rest ih =>
      obtain ⟨nm, t⟩ := x
      simp [walkSubs, ih]

/-- A permission-denied subtree contributes nothing to the walk: the
yielded directory list is the one of the tree without it. -/
theorem walkDirs_drop_denied (P : List String) (files : List String)
    (pre post : List (String × FSTree)) (nm : String) :
    walkDirs P (.node files (pre ++ (nm, FSTree.denied) :: post)) =
    walkDirs P (.node files (pre ++ post)) := by
  rw [walkDirs, walkDirs, walkSubs_append, walkSubs_append]
  rw [walkSubs]
  simp [walkDirs]

/-- The worker always puts the sentinel as its final queue item, and
no result item equals the sentinel. -/
theorem worker_sentinel (search_term : String) (resolve : String → ResolveOutcome)
    (evt : Nat → Bool) (roots : List Root) :
    (search_worker search_term resolve evt roots).getLast? = some none ∧
    (search_worker search_term resolve evt roots).count none = 1 := by
  unfold search_worker
  constructor
  · exact List.getLast?_concat _
  · rw [List.count_append]
    have h0 : ((rootsLoop (strLower search_term) resolve evt 0 roots).2.map some).count
        (none : Option SearchResult) = 0 :=
      List.count_eq_zero.mpr (by simp)
    simp [h0]

/-- C4: for any request — any term, any roots (existing or not, denied
or not), any cancellation pattern — the item stream of one worker
invocation ends with the completion sentinel and contains it exactly
once, so nothing is produced after it. -/
theorem C4_exactly_one_sentinel (search_term : String) (resolve : String → ResolveOutcome)
    (evt : Nat → Bool) (roots : List Root) :
    (search_worker search_term resolve evt roots).getLast? = some none ∧
    (search_worker search_term resolve evt roots).count none = 1 :=
  worker_sentinel search_term resolve evt roots

/-- C5: once the token is set (`evt` monotone, set at call `N`), every
later boundary check stops the worker at once — the pending traversal
emits no further result — and the sentinel is still emitted exactly
once, as the last item. -/
theorem C5_cancellation_safety (search_term : String) (resolve : String → ResolveOutcome)
    (evt : Nat → Bool) (hmono : ∀ m n, m ≤ n → evt m = true → evt n = true)
    (N : Nat) (hN : evt N = true) (n : Nat) (hn : N ≤ n)
    (roots : List Root) (es : List (List String × List String)) :
    (rootsLoop (strLower search_term) resolve evt n roots).2 = [] ∧
    (walkRoot (strLower search_term) resolve evt n es).2 = [] ∧
    (search_worker search_term resolve evt roots).getLast? = some none ∧
    (search_worker search_term resolve evt roots).count none = 1 := by
  have ht : evt n = true := hmono N n hn hN
  refine ⟨?_, ?_, (worker_sentinel search_term resolve evt roots).1,
    (worker_sentinel search_term resolve evt roots).2⟩
  · cases roots with
    | nil => rfl
    | cons r rest => simp [rootsLoop, ht]
  · cases es with
    | nil => rfl
    | cons e rest => simp [walkRoot, ht]

theorem C5_cancellation_safety_witness :
    (∀ m n : Nat, m ≤ n → (fun _ : Nat => true) m = true → (fun _ : Nat => true) n = true) ∧
    (fun _ : Nat => true) 0 = true ∧ (0 : Nat) ≤ 0 ∧
    ((rootsLoop (strLower "mario") (fun _ => .unavailable) (fun _ => true) 0
        [⟨["C:\\"], true, .node ["mario.exe"] []⟩]).2 = [] ∧
     (walkRoot (strLower "mario") (fun _ => .unavailable) (fun _ => true) 0
        [(["C:\\"], ["mario.exe"])]).2 = [] ∧
     (search_worker "mario" (fun _ => .unavailable) (fun _ => true)
        [⟨["C:\\"], true, .node ["mario.exe"] []⟩]).getLast? = some none ∧
     (search_worker "mario" (fun _ => .unavailable) (fun _ => true)
        [⟨["C:\\"], true, .node ["mario.exe"] []⟩]).count none = 1) :=
  ⟨fun _ _ _ h => h, rfl, Nat.le_refl 0,
    C5_cancellation_safety "mario" (fun _ => .unavailable) (fun _ => true)
      (fun _ _ _ h => h) 0 rfl 0 (Nat.le_refl 0) _ _⟩

/-- C6: a reported file never lies under a directory whose name starts
with a dot — the dirpath of every candidate has no dot-component —
and the emitted results are exactly the images of the candidates. -/
theorem C6_hidden_directory_skip (term : String) (resolve : String → ResolveOutcome)
    (P : List String) (T : FSTree) (dp : List String) (f : String)
    (h : (dp, f) ∈ candidates term P T) :
    (∀ p ∈ dp, strStartsWith p "." = false) ∧
    rootResults term resolve P T = (candidates term P T).map (fun c => emitFile resolve c.1 c.2) := by
  refine ⟨?_, rootResults_eq_map_candidates term resolve P T⟩
  rw [candidates, List.mem_flatMap] at h
  obtain ⟨e, _, hmem⟩ := h
  by_cases hh : hiddenDir e.1
  · simp [hh] at hmem
  · rw [if_neg (by simp [hh]), List.mem_map] at hmem
    obtain ⟨f', _, heq⟩ := hmem
    rw [Prod.mk.injEq] at heq
    obtain ⟨h1, _⟩ := heq
    subst h1
    intro p hp
    cases hb : strStartsWith p "." with
    | false => rfl
    | true =>
        exact absurd (by simp only [hiddenDir, List.any_eq_true]; exact ⟨p, hp, hb⟩) hh

theorem C6_hidden_directory_skip_witness :
    ((["C:\\", "Games"], "mario.exe") ∈ candidates "mario" ["C:\\"]
      (.node [] [("Games", .node ["mario.exe"] []), (".git", .node ["mario.exe"] [])])) ∧
    ((∀ p ∈ ["C:\\", "Games"], strStartsWith p "." = false) ∧
      rootResults "mario" (fun _ => .unavailable) ["C:\\"]
          (.node [] [("Games", .node ["mario.exe"] []), (".git", .node ["mario.exe"] [])]) =
        (candidates "mario" ["C:\\"]
          (.node [] [("Games", .node ["mario.exe"] []), (".git", .node ["mario.exe"] [])])).map
          (fun c => emitFile (fun _ => .unavailable) c.1 c.2)) :=
  ⟨by decide,
    C6_hidden_directory_skip "mario" (fun _ => .unavailable) ["C:\\"] _ _ "mario.exe" (by decide)⟩

/-- C9: when the root path itself has a component that starts with a
dot, every visited dirpath inherits it, so the hidden filter rejects
every directory and the whole root yields no result at all. -/
theorem C9_hidden_root_component (search_term : String) (resolve : String → ResolveOutcome)
    (P : List String) (p : String) (hp : p ∈ P) (hdot : strStartsWith p "." = true)
    (T : FSTree) :
    rootResults search_term resolve P T = [] ∧
    search_worker search_term resolve (fun _ => false) [⟨P, true, T⟩] = [none] := by
  have hnil : ∀ (t : String), rootResults t resolve P T = [] := by
    intro t
    apply flatMap_eq_nil_of_forall
    intro e he
    have hpre : P <+: e.1 := walkDirs_path_extends P T e he
    have hmem : p ∈ e.1 := hpre.subset hp
    have hhid : hiddenDir e.1 = true := by
      simp only [hiddenDir, List.any_eq_true]
      exact ⟨p, hmem, hdot⟩
    rw [if_pos hhid]
  refine ⟨hnil search_term, ?_⟩
  unfold search_worker
  rw [rootsLoop_no_cancel _ _ _ (fun _ => rfl)]
  simp [hnil]

theorem C9_hidden_root_component_witness :
    (".config" ∈ ["C:\\", "Users", "u", ".config"]) ∧
    strStartsWith ".config" "." = true ∧
    (rootResults "mario" (fun _ => .unavailable) ["C:\\", "Users", "u", ".config"]
        (.node ["mario.exe"] [("d", .node ["mario.exe"] [])]) = [] ∧
     search_worker "mario" (fun _ => .unavailable) (fun _ => false)
        [⟨["C:\\", "Users", "u", ".config"], true,
          .node ["mario.exe"] [("d", .node ["mario.exe"] [])]⟩] = [none]) :=
  ⟨by decide, by decide,
    C9_hidden_root_component "mario" (fun _ => .unavailable) _ ".config" (by decide) (by decide) _⟩

/-- C1: for a non-empty term, a file reached by the per-file loop
(encountered by the walk, in a directory the hidden filter lets
through) is reported exactly when its name ends case-insensitively in
`.exe` or `.lnk` and the term is a case-insensitive substring of the
file name, or exactly equals (case-insensitively) a single component
of the containing directory chain. -/
theorem C1_matching_rule (search_term : String) (hterm : search_term ≠ "")
    (P : List String) (T : FSTree) (dp : List String) (f : String)
    (henc : (dp, f) ∈ walkFiles P T) (hvis : hiddenDir dp = false) :
    (dp, f) ∈ candidates (strLower search_term) P T ↔ specMatch search_term dp f := by
  constructor
  · intro h
    rw [candidates, List.mem_flatMap] at h
    obtain ⟨e, _, hmem⟩ := h
    by_cases hh : hiddenDir e.1
    · simp [hh] at hmem
    · rw [if_neg (by simp [hh]), List.mem_map] at hmem
      obtain ⟨f', hf', heq⟩ := hmem
      rw [Prod.mk.injEq] at heq
      obtain ⟨h1, h2⟩ := heq
      subst h1; subst h2
      exact (fileAccepted_iff search_term e.1 f').mp (List.mem_filter.mp hf').2
  · intro hspec
    rw [walkFiles, List.mem_flatMap] at henc
    obtain ⟨e, he, hmem⟩ := henc
    rw [List.mem_map] at hmem
    obtain ⟨f', hf', heq⟩ := hmem
    rw [Prod.mk.injEq] at heq
    obtain ⟨h1, h2⟩ := heq
    subst h1; subst h2
    rw [candidates, List.mem_flatMap]
    refine ⟨e, he, ?_⟩
    rw [if_neg (by simp [hvis]), List.mem_map]
    exact ⟨f', List.mem_filter.mpr ⟨hf', (fileAccepted_iff search_term e.1 f').mpr hspec⟩, rfl⟩

theorem C1_matching_rule_witness :
    "mario" ≠ "" ∧
    ((["C:\\", "Games"], "SuperMario.exe") ∈
      walkFiles ["C:\\"] (.node ["skip.txt"] [("Games", .node ["SuperMario.exe"] [])])) ∧
    hiddenDir ["C:\\", "Games"] = false ∧
    ((["C:\\", "Games"], "SuperMario.exe") ∈
        candidates (strLower "mario") ["C:\\"]
          (.node ["skip.txt"] [("Games", .node ["SuperMario.exe"] [])]) ↔
      specMatch "mario" ["C:\\", "Games"] "SuperMario.exe") :=
  ⟨by decide, by decide, by decide,
    C1_matching_rule "mario" (by decide) ["C:\\"] _ _ "SuperMario.exe" (by decide) (by decide)⟩

/-- Replacing the tree of one root by a tree with the same `os.walk`
output leaves the whole worker run unchanged. -/
theorem rootsLoop_tree_swap (term : String) (resolve : String → ResolveOutcome)
    (evt : Nat → Bool) (P : List String) (t t' : FSTree)
    (hwalk : walkDirs P t = walkDirs P t') (rootsPost : List Root) :
    ∀ (n : Nat) (rootsPre : List Root),
      rootsLoop term resolve evt n (rootsPre ++ ⟨P, true, t⟩ :: rootsPost) =
      rootsLoop term resolve evt n (rootsPre ++ ⟨P, true, t'⟩ :: rootsPost) := by
  intro n pre
  induction pre generalizing n with
  | nil =>
      simp only [List.nil_append]
      rw [rootsLoop, rootsLoop]
      simp [hwalk]
  | cons x rest ih =>
      simp only [List.cons_append]
      rw [rootsLoop, rootsLoop]
      by_cases he : evt n
      · simp [he]
      · by_cases hd : x.isDir
        · simp [he, hd, ih]
        · simp [he, hd, ih]

/-- C7: a subtree whose enumeration raises a permission error is
abandoned silently: the worker stream — earlier roots, the sibling
directories of the failing subtree, the later roots, and the final
sentinel — is the one of the same filesystem without that subtree,
whatever the term, the resolver and the cancellation pattern. -/
theorem C7_permission_error_resilience (search_term : String)
    (resolve : String → ResolveOutcome) (evt : Nat → Bool)
    (rootsPre rootsPost : List Root) (P : List String) (files : List String)
    (pre post : List (String × FSTree)) (nm : String) :
    search_worker search_term resolve evt
        (rootsPre ++ ⟨P, true, .node files (pre ++ (nm, FSTree.denied) :: post)⟩ :: rootsPost) =
    search_worker search_term resolve evt
        (rootsPre ++ ⟨P, true, .node files (pre ++ post)⟩ :: rootsPost) := by
  unfold search_worker
  rw [rootsLoop_tree_swap _ _ _ _ _ _ (walkDirs_drop_denied P files pre post nm)]

/-- C8 counterexample: a configured list holding only an empty string
is non-empty, yet the code falls back to the fixed list instead of
using it. -/
theorem C8_counterexample :
    [""] ≠ ([] : List String) ∧
    get_search_roots [""] none none "C:\\Users\\u" ≠ [""] := by decide

/-- C8 amended: the root set is the configured search paths minus
falsy (empty) entries, in order, when any survive; else the fixed
fallback list of the two program-files folders, home, app-data
roaming, desktop and documents.  A root that is not an existing
directory only costs the boundary check: the loop moves on silently. -/
theorem C8_root_set (search_paths : List String)
    (programFiles programFilesX86 : Option String) (home : String)
    (term : String) (resolve : String → ResolveOutcome) (evt : Nat → Bool) (n : Nat)
    (r : Root) (rest : List Root) (hdir : r.isDir = false) (hevt : evt n = false) :
    (search_paths.filter (fun p => p ≠ "") ≠ [] →
      get_search_roots search_paths programFiles programFilesX86 home =
        search_paths.filter (fun p => p ≠ "")) ∧
    (search_paths.filter (fun p => p ≠ "") = [] →
      get_search_roots search_paths programFiles programFilesX86 home =
        [programFiles.getD "C:\\Program Files",
         programFilesX86.getD "C:\\Program Files (x86)",
         home, home ++ "\\AppData\\Roaming", home ++ "\\Desktop", home ++ "\\Documents"]) ∧
    rootsLoop term resolve evt n (r :: rest) = rootsLoop term resolve evt (n + 1) rest := by
  refine ⟨?_, ?_, ?_⟩
  · intro h
    rw [get_search_roots, if_pos h]
  · intro h
    rw [get_search_roots, if_neg (fun hc => hc h)]
    rfl
  · rw [rootsLoop]
    simp [hevt, hdir]

theorem C8_root_set_witness :
    (Root.mk ["C:\\missing"] false (.node [] [])).isDir = false ∧
    (fun _ : Nat => false) 0 = false ∧
    ((["C:\\Games"].filter (fun p => p ≠ "") ≠ [] →
        get_search_roots ["C:\\Games"] none none "C:\\Users\\u" =
          ["C:\\Games"].filter (fun p => p ≠ "")) ∧
     (["C:\\Games"].filter (fun p => p ≠ "") = [] →
        get_search_roots ["C:\\Games"] none none "C:\\Users\\u" =
          [(none : Option String).getD "C:\\Program Files",
           (none : Option String).getD "C:\\Program Files (x86)",
           "C:\\Users\\u", "C:\\Users\\u" ++ "\\AppData\\Roaming",
           "C:\\Users\\u" ++ "\\Desktop", "C:\\Users\\u" ++ "\\Documents"]) ∧
     rootsLoop "m" (fun _ => .unavailable) (fun _ => false) 0
         (Root.mk ["C:\\missing"] false (.node [] []) :: []) =
       rootsLoop "m" (fun _ => .unavailable) (fun _ => false) (0 + 1) []) :=
  ⟨rfl, rfl,
    C8_root_set ["C:\\Games"] none none "C:\\Users\\u" "m" (fun _ => .unavailable)
      (fun _ => false) 0 (Root.mk ["C:\\missing"] false (.node [] [])) [] rfl rfl⟩

/-- C10: roots are scanned independently, with no deduplication: with
the desktop root nested inside the home root (as in the fallback
list), the same file yields the same result pair once per containing
root in a single worker stream. -/
theorem C10_nested_roots_duplicate :
    (search_worker "mario" (fun _ => .unavailable) (fun _ => false)
        [⟨["C:\\", "Users", "me"], true, .node [] [("Desktop", .node ["mario.exe"] [])]⟩,
         ⟨["C:\\", "Users", "me", "Desktop"], true, .node ["mario.exe"] []⟩]).count
      (some ⟨"mario", "C:\\Users\\me\\Desktop\\mario.exe"⟩) = 2 := by decide

/-- C2: evidence of the stale-queue cross-talk.  The first search
(term `"mario"`) is cancelled after it emitted one result; the join
still lets it put its sentinel, and `start_search` never drains
`result_q`.  With none of those items consumed yet (`drained = 0`),
the poll loop of the restarted search (term `"luigi"`) dequeues the
old result and the old sentinel, stops there, and never shows the new
search result the new worker did put into the queue. -/
theorem C2_stale_queue_cross_talk :
    observedByPoll
        (queueAfterRestart
          (search_worker "mario" (fun _ => .unavailable) (fun n => 2 ≤ n)
            [⟨["C:\\"], true, .node ["SuperMario.exe"] [("d", .node ["m2.exe"] [])]⟩])
          0
          (search_worker "luigi" (fun _ => .unavailable) (fun _ => false)
            [⟨["C:\\"], true, .node ["Luigi.exe"] []⟩])) =
      [some ⟨"SuperMario", "C:\\SuperMario.exe"⟩, none] ∧
    some (SearchResult.mk "Luigi" "C:\\Luigi.exe") ∈
      search_worker "luigi" (fun _ => .unavailable) (fun _ => false)
        [⟨["C:\\"], true, .node ["Luigi.exe"] []⟩] := by
  constructor <;> decide

/-- C3 counterexample: resolution succeeds and yields a non-executable
target (`readme.txt`); the claim says the result must fall back to the
shortcut own path, but the code reports the resolved target path. -/
theorem C3_counterexample :
    (emitFile (fun _ => .ok "C:\\Docs\\readme.txt") ["C:\\", "Games"] "foo.lnk").targetPath =
      "C:\\Docs\\readme.txt" ∧
    (emitFile (fun _ => .ok "C:\\Docs\\readme.txt") ["C:\\", "Games"] "foo.lnk").targetPath ≠
      joinP (["C:\\", "Games"] ++ ["foo.lnk"]) := by decide

/-- C3 amended: for a matching `.lnk` file, when resolution succeeds
with a non-empty target ending case-insensitively in `.exe`, the
result is the target stem and the target path; when it succeeds with a
non-empty target that is not an executable, the display name falls
back to the shortcut stem but the target path is still the resolved
target; only when resolution is unavailable, fails, or yields an empty
target is the result the shortcut stem and the shortcut own path. -/
theorem C3_shortcut_resolution (resolve : String → ResolveOutcome)
    (dp : List String) (fname : String)
    (hlnk : strEndsWith (strLower fname) ".lnk" = true) :
    (∀ target, resolve (joinP (dp ++ [fname])) = .ok target →
      (target ≠ "" → strEndsWith (strLower target) ".exe" = true →
        emitFile resolve dp fname = ⟨pyStem (pyPathName target), target⟩) ∧
      (target ≠ "" → strEndsWith (strLower target) ".exe" = false →
        emitFile resolve dp fname = ⟨pyStem fname, target⟩) ∧
      (target = "" →
        emitFile resolve dp fname = ⟨pyStem fname, joinP (dp ++ [fname])⟩)) ∧
    (resolve (joinP (dp ++ [fname])) = .err →
      emitFile resolve dp fname = ⟨pyStem fname, joinP (dp ++ [fname])⟩) ∧
    (resolve (joinP (dp ++ [fname])) = .unavailable →
      emitFile resolve dp fname = ⟨pyStem fname, joinP (dp ++ [fname])⟩) := by
  refine ⟨?_, ?_, ?_⟩
  · intro target hok
    refine ⟨?_, ?_, ?_⟩
    · intro hne hexe
      simp only [emitFile, hlnk, if_true, hok]
      rw [if_pos ⟨hne, hexe⟩, if_pos hne]
    · intro hne hexe
      simp only [emitFile, hlnk, if_true, hok]
      rw [if_neg (fun hc => by simp [hexe] at hc), if_pos hne]
    · intro hempty
      simp only [emitFile, hlnk, if_true, hok, hempty]
      rw [if_neg (fun hc => hc.1 rfl), if_neg (fun hc => hc rfl)]
  · intro herr
    simp only [emitFile, hlnk, if_true, herr]
  · intro huna
    simp only [emitFile, hlnk, if_true, huna]

theorem C3_shortcut_resolution_witness :
    strEndsWith (strLower "foo.lnk") ".lnk" = true ∧
    ((∀ target, (fun _ => ResolveOutcome.ok "C:\\Apps\\Game.exe") (joinP (["C:\\", "x"] ++ ["foo.lnk"])) = .ok target →
        (target ≠ "" → strEndsWith (strLower target) ".exe" = true →
          emitFile (fun _ => ResolveOutcome.ok "C:\\Apps\\Game.exe") ["C:\\", "x"] "foo.lnk" =
            ⟨pyStem (pyPathName target), target⟩) ∧
        (target ≠ "" → strEndsWith (strLower target) ".exe" = false →
          emitFile (fun _ => ResolveOutcome.ok "C:\\Apps\\Game.exe") ["C:\\", "x"] "foo.lnk" =
            ⟨pyStem "foo.lnk", target⟩) ∧
        (target = "" →
          emitFile (fun _ => ResolveOutcome.ok "C:\\Apps\\Game.exe") ["C:\\", "x"] "foo.lnk" =
            ⟨pyStem "foo.lnk", joinP (["C:\\", "x"] ++ ["foo.lnk"])⟩)) ∧
     ((fun _ => ResolveOutcome.ok "C:\\Apps\\Game.exe") (joinP (["C:\\", "x"] ++ ["foo.lnk"])) = .err →
        emitFile (fun _ => ResolveOutcome.ok "C:\\Apps\\Game.exe") ["C:\\", "x"] "foo.lnk" =
          ⟨pyStem "foo.lnk", joinP (["C:\\", "x"] ++ ["foo.lnk"])⟩) ∧
     ((fun _ => ResolveOutcome.ok "C:\\Apps\\Game.exe") (joinP (["C:\\", "x"] ++ ["foo.lnk"])) = .unavailable →
        emitFile (fun _ => ResolveOutcome.ok "C:\\Apps\\Game.exe") ["C:\\", "x"] "foo.lnk" =
          ⟨pyStem "foo.lnk", joinP (["C:\\", "x"] ++ ["foo.lnk"])⟩)) :=
  ⟨by decide,
    C3_shortcut_resolution (fun _ => ResolveOutcome.ok "C:\\Apps\\Game.exe") ["C:\\", "x"]
      "foo.lnk" (by decide)⟩
